import Mathlib

/-!
# Verification of the chatserver core (state store, action log + replay, subscription engine)

Shallow embedding of the Go packages `model` (the state store), `model/actions`
(the action logger / replayer) and `model/subs` (the subscription engine).

Modelling decisions:
* Go `map[string]*T` becomes an association list `List (String × T)`; the
  operations below only ever insert a key after checking it is absent, so the
  keys stay distinct, mirroring map semantics.
* `time.Time` becomes `GoTime` (seconds and nanoseconds of the instant).  The
  JSON marshalling of a `time.Time` produces an RFC3339 string with the
  sub-second part appended when present, and `time.Parse(time.RFC3339, ·)`
  accepts an optional fractional-second field, so the instant round-trips
  exactly; the embedding represents such a serialized timestamp string by the
  dedicated constructor `JValue.jtime` carrying the instant.
* The asynchronous parts (goroutines, mutexes) are outside the embedding; each
  mutation returns, next to the new state, the list of log records written and
  the list of notifications triggered during the call.
* Go's unchecked type assertion in `Replayer.parseAction` (which panics when
  the "Action" field is not a JSON object) is modelled by the `PRes.crash`
  outcome, distinct from an error return.
-/

namespace ChatServer

/-- An instant of Go `time.Time`: Unix seconds and nanoseconds.  Monotonic
clock readings and location data are below this abstraction. -/
structure GoTime where
  sec : Int
  nsec : Int
deriving DecidableEq, Repr

/-- `model.User`: name and list of blocked usernames. -/
structure User where
  name : String
  blockedUsers : List String
deriving DecidableEq, Repr

/-- `model.Message`: author, caller-supplied timestamp, text. -/
structure Message where
  username : String
  timestamp : GoTime
  text : String
deriving DecidableEq, Repr

/-- `model.Channel`: name and append-only message sequence. -/
structure Channel where
  name : String
  messages : List Message
deriving DecidableEq, Repr

/-- The two entity maps of `model.Model` (`users`, `channels`), as
association lists standing for the Go string-keyed maps. -/
structure ModelSt where
  users : List (String × User)
  channels : List (String × Channel)
deriving DecidableEq, Repr

/-- Go map read `m[k]`: first entry with the key. -/
def lookupKey : List (String × α) → String → Option α
  | [], _ => none
  | p :: rest, k => if p.1 = k then some p.2 else lookupKey rest k

/-- Go map write limited to an existing key: rewrite the value stored under
`key` with `f`, leaving every other entry alone. -/
def updateEntry (key : String) (f : α → α) : List (String × α) → List (String × α)
  | [] => []
  | p :: rest => (p.1, if p.1 = key then f p.2 else p.2) :: updateEntry key f rest

/-- Go map `delete(m, k)`: drop the entry holding the key. -/
def eraseKey : List (String × α) → String → List (String × α)
  | [], _ => []
  | p :: rest, k => if p.1 = k then rest else p :: eraseKey rest k

/-- The linear scan `for _, b := range list if b == x` used by the model. -/
def elemStr : List String → String → Bool
  | [], _ => false
  | x :: rest, y => x = y || elemStr rest y

/-- The splice `append(l[:i], l[i+1:]...)` at the first index holding `x`
(`Model.DeleteUser` / `Model.UnblockUser`). -/
def removeFirst : List String → String → List String
  | [], _ => []
  | x :: rest, y => if x = y then rest else x :: removeFirst rest y

/-- One durable action record payload, `actions.Actor`'s seven mutations. -/
inductive ActionRec
  | createUser (username : String)
  | deleteUser (username : String)
  | blockUser (username usernameToBlock : String)
  | unblockUser (username usernameToUnblock : String)
  | createChannel (channelname : String)
  | deleteChannel (channelname : String)
  | postMessage (channelname username : String) (timestamp : GoTime) (text : String)
deriving DecidableEq, Repr

/-- One notification trigger raised on the subscription engine. -/
inductive Notification
  | usersChanged
  | userChanged (username : String)
  | channelsChanged
  | channelChanged (channelname : String)
deriving DecidableEq, Repr

/-- Result of one state store call: the new state, the action records written
to the log during the call, and the notifications triggered. -/
structure StepResult where
  state : ModelSt
  log : List ActionRec
  notifs : List Notification
deriving DecidableEq, Repr

/-- A rejected call: state untouched, nothing logged, nothing notified. -/
def noChange (m : ModelSt) : StepResult := ⟨m, [], []⟩

/-- `Model.CreateUser`. -/
def createUser (m : ModelSt) (username : String) : StepResult :=
  if (lookupKey m.users username).isSome then noChange m
  else if username = "" then noChange m
  else if username.data.contains ' ' then noChange m
  else
    { state := { m with users := (username, ⟨username, []⟩) :: m.users }
      log := [.createUser username]
      notifs := [.usersChanged] }

/-- `Model.DeleteUser`: remove the user, then remove the name from every
remaining user's blocked list (first occurrence, as the Go splice does). -/
def deleteUser (m : ModelSt) (username : String) : StepResult :=
  if (lookupKey m.users username).isNone then noChange m
  else if username = "Anonymous" then noChange m
  else
    let users' := (eraseKey m.users username).map
      (fun p => (p.1, { p.2 with blockedUsers := removeFirst p.2.blockedUsers username }))
    { state := { m with users := users' }
      log := [.deleteUser username]
      notifs := [.usersChanged] }

/-- `Model.BlockUser`: four validation guards, then append the target to the
blocked list when absent; the log write and notification are unconditional
once validation passed. -/
def blockUser (m : ModelSt) (username usernameToBlock : String) : StepResult :=
  if (lookupKey m.users username).isNone then noChange m
  else if (lookupKey m.users usernameToBlock).isNone then noChange m
  else if username = "Anonymous" then noChange m
  else if username = usernameToBlock then noChange m
  else
    let users' := updateEntry username
      (fun u => if elemStr u.blockedUsers usernameToBlock then u
                else { u with blockedUsers := u.blockedUsers ++ [usernameToBlock] }) m.users
    { state := { m with users := users' }
      log := [.blockUser username usernameToBlock]
      notifs := [.userChanged username] }

/-- `Model.UnblockUser`: only the two existence guards, then remove the first
occurrence when present; log write and notification are unconditional once
both names are known. -/
def unblockUser (m : ModelSt) (username usernameToUnblock : String) : StepResult :=
  if (lookupKey m.users username).isNone then noChange m
  else if (lookupKey m.users usernameToUnblock).isNone then noChange m
  else
    let users' := updateEntry username
      (fun u => { u with blockedUsers := removeFirst u.blockedUsers usernameToUnblock }) m.users
    { state := { m with users := users' }
      log := [.unblockUser username usernameToUnblock]
      notifs := [.userChanged username] }

/-- `Model.CreateChannel`. -/
def createChannel (m : ModelSt) (channelname : String) : StepResult :=
  if (lookupKey m.channels channelname).isSome then noChange m
  else if channelname = "" then noChange m
  else if channelname.data.contains ' ' then noChange m
  else
    { state := { m with channels := (channelname, ⟨channelname, []⟩) :: m.channels }
      log := [.createChannel channelname]
      notifs := [.channelsChanged] }

/-- `Model.DeleteChannel`. -/
def deleteChannel (m : ModelSt) (channelname : String) : StepResult :=
  if (lookupKey m.channels channelname).isNone then noChange m
  else if channelname = "General" then noChange m
  else
    { state := { m with channels := eraseKey m.channels channelname }
      log := [.deleteChannel channelname]
      notifs := [.channelsChanged] }

/-- `Model.PostMessage`. -/
def postMessage (m : ModelSt) (channelname username : String) (timestamp : GoTime)
    (text : String) : StepResult :=
  if (lookupKey m.channels channelname).isNone then noChange m
  else if (lookupKey m.users username).isNone then noChange m
  else if text = "" then noChange m
  else
    let channels' := updateEntry channelname
      (fun c => { c with messages := c.messages ++ [⟨username, timestamp, text⟩] }) m.channels
    { state := { m with channels := channels' }
      log := [.postMessage channelname username timestamp text]
      notifs := [.channelChanged channelname] }

/-- Dispatch one mutation call on the store. -/
def step (m : ModelSt) : ActionRec → StepResult
  | .createUser u => createUser m u
  | .deleteUser u => deleteUser m u
  | .blockUser u t => blockUser m u t
  | .unblockUser u t => unblockUser m u t
  | .createChannel c => createChannel m c
  | .deleteChannel c => deleteChannel m c
  | .postMessage c u ts x => postMessage m c u ts x

/-- The state component of a mutation, as replay applies it (logging and
notification suppressed do not influence the state). -/
def applyAction (m : ModelSt) (a : ActionRec) : ModelSt := (step m a).state

/-- Apply a list of replayed actions in order. -/
def replayActions (m : ModelSt) (as : List ActionRec) : ModelSt :=
  as.foldl applyAction m

/-- Run a list of live mutation calls, collecting the log records written. -/
def runLive (m : ModelSt) : List ActionRec → ModelSt × List ActionRec
  | [] => (m, [])
  | a :: rest =>
    let r := step m a
    let t := runLive r.state rest
    (t.1, r.log ++ t.2)

/-- The maps of a freshly constructed `Model` before seeding. -/
def emptyModel : ModelSt := ⟨[], []⟩

/-- The two seed calls `NewModel` issues when no replayer is given. -/
def seedActions : List ActionRec := [.createUser "Anonymous", .createChannel "General"]

/-- Fresh seeded store construction followed by the mutation calls `as`:
final state and the full log written (seed records included). -/
def liveRun (as : List ActionRec) : ModelSt × List ActionRec :=
  runLive emptyModel (seedActions ++ as)

/-- `Model.GetChannelHistory`: the `numMessages` window is computed over the
unfiltered sequence, then the copy loop skips messages from blocked users. -/
def getChannelHistory (m : ModelSt) (channelname username : String)
    (numMessages : Int) : List Message :=
  match lookupKey m.channels channelname with
  | none => []
  | some channel =>
    match lookupKey m.users username with
    | none => []
    | some user =>
      let start0 : Int := (channel.messages.length : Int) - numMessages
      let start1 : Int := if start0 < 0 then 0 else start0
      let start : Int := if numMessages = -1 then 0 else start1
      (channel.messages.drop start.toNat).filter
        (fun msg => !(elemStr user.blockedUsers msg.username))

/-- Two's-complement wraparound of Go's 64-bit `int`: the value an overflowing
arithmetic result is reduced to, in `[-2^63, 2^63)`. -/
def intWrap (n : Int) : Int := (n + 2 ^ 63) % 2 ^ 64 - 2 ^ 63

/-- `Model.GetChannelHistory` with the machine arithmetic made explicit: Go's
`startingMessageIndex := len(channel.Messages) - numMessages` is a wrapping
64-bit subtraction, so for `numMessages` near the minimum representable int
the difference overflows to a negative value and is then clamped to 0.
`getChannelHistory` above is the same source function with the subtraction
idealized; the two agree wherever the subtraction cannot overflow
(`getChannelHistory64_agrees`). -/
def getChannelHistory64 (m : ModelSt) (channelname username : String)
    (numMessages : Int) : List Message :=
  match lookupKey m.channels channelname with
  | none => []
  | some channel =>
    match lookupKey m.users username with
    | none => []
    | some user =>
      let start0 : Int := intWrap ((channel.messages.length : Int) - numMessages)
      let start1 : Int := if start0 < 0 then 0 else start0
      let start : Int := if numMessages = -1 then 0 else start1
      (channel.messages.drop start.toNat).filter
        (fun msg => !(elemStr user.blockedUsers msg.username))

/-! ## The persisted log format and the replayer (`model/actions`) -/

/-- The JSON values `json.Unmarshal` can produce for an `interface\x7b\x7d`
slot, with one refinement: a string that is a valid RFC3339 timestamp is
represented by `jtime` carrying the instant it denotes, every other string by
`jstr`. -/
inductive JValue
  | jnull
  | jbool (b : Bool)
  | jnum (n : Int)
  | jstr (s : String)
  | jtime (t : GoTime)
  | jarr (elems : List JValue)
  | jobj (fields : List (String × JValue))

/-- One decoded log record, Go's `map[string]interface\x7b\x7d`. -/
def JObj := List (String × JValue)

/-- Go's `v.(string)` type assertion outcome: succeeds exactly on strings,
RFC3339 timestamp strings included (their text is irrelevant downstream, a
tagged placeholder stands for it). -/
def asString : JValue → Option String
  | .jstr s => some s
  | .jtime t => some ("rfc3339#" ++ t.sec.repr ++ "." ++ t.nsec.repr)
  | _ => none

/-- Go's `v.(map[string]interface\x7b\x7d)` assertion outcome. -/
def asObj : JValue → Option JObj
  | .jobj fields => some fields
  | _ => none

/-- Outcome of running replayer code: a value, an error return, or a Go
runtime panic (`crash`, raised by an unchecked type assertion). -/
inductive PRes (α : Type)
  | ok (a : α)
  | err (msg : String)
  | crash
deriving DecidableEq

/-- `Replayer.parseCreateUser` (also the shape of the other one-field
parsers): require the field, require it to be a string, then dispatch. -/
def parseOneString (r : JObj) (field : String) (mk : String → ActionRec)
    (missingMsg wrongTypeMsg : String) : PRes ActionRec :=
  match lookupKey r field with
  | none => .err missingMsg
  | some v =>
    match asString v with
    | none => .err wrongTypeMsg
    | some s => .ok (mk s)

/-- `Replayer.parseBlockUser` / `parseUnblockUser` shape. -/
def parseTwoStrings (r : JObj) (f1 f2 : String) (mk : String → String → ActionRec)
    (miss1 wrong1 miss2 wrong2 : String) : PRes ActionRec :=
  match lookupKey r f1 with
  | none => .err miss1
  | some v1 =>
    match asString v1 with
    | none => .err wrong1
    | some s1 =>
      match lookupKey r f2 with
      | none => .err miss2
      | some v2 =>
        match asString v2 with
        | none => .err wrong2
        | some s2 => .ok (mk s1 s2)

/-- `Replayer.parsePostMessage`: Channelname, Username, Timestamp (a string
that must then pass `time.Parse(time.RFC3339, ·)`), Text. -/
def parsePostMessage (r : JObj) : PRes ActionRec :=
  match lookupKey r "Channelname" with
  | none => .err "invalid input log file - PostMessage - missing Channelname"
  | some cv =>
    match asString cv with
    | none => .err "invalid input log file - PostMessage - Channelname not a string"
    | some channelname =>
      match lookupKey r "Username" with
      | none => .err "invalid input log file - PostMessage - missing Username"
      | some uv =>
        match asString uv with
        | none => .err "invalid input log file - PostMessage - Username not a string"
        | some username =>
          match lookupKey r "Timestamp" with
          | none => .err "invalid input log file - PostMessage - missing Timestamp"
          | some tv =>
            match tv with
            | .jtime t =>
              match lookupKey r "Text" with
              | none => .err "invalid input log file - PostMessage - missing Text"
              | some xv =>
                match asString xv with
                | none => .err "invalid input log file - PostMessage - Text not a string"
                | some text => .ok (.postMessage channelname username t text)
            | .jstr _ => .err "parsing time: not a valid RFC3339 timestamp"
            | _ => .err "invalid input log file - PostMessage - Timestamp not a string"

/-- `Replayer.parseAction`: find the envelope, read the kind, dispatch to the
per-kind field parser.  The `Action` value goes through an unchecked type
assertion, so a present but non-object value crashes instead of erroring. -/
def parseActionRecord (r : JObj) : PRes ActionRec :=
  match lookupKey r "Action" with
  | none => .err "invalid input log file - action not found"
  | some av =>
    match asObj av with
    | none => .crash
    | some actionStruct =>
      match lookupKey actionStruct "Name" with
      | none => .err "invalid input log file - name not found"
      | some nv =>
        match asString nv with
        | none => .err "invalid input log file - name not string"
        | some name =>
          if name = "CreateUser" then
            parseOneString r "Username" ActionRec.createUser
              "invalid input log file - CreateUser - missing Username"
              "invalid input log file - CreateUser - Username not a string"
          else if name = "DeleteUser" then
            parseOneString r "Username" ActionRec.deleteUser
              "invalid input log file - DeleteUser - missing Username"
              "invalid input log file - DeleteUser - Username not a string"
          else if name = "BlockUser" then
            parseTwoStrings r "Username" "UsernameToBlock" ActionRec.blockUser
              "invalid input log file - BlockUser - missing Username"
              "invalid input log file - BlockUser - Username not a string"
              "invalid input log file - BlockUser - missing UsernameToBlock"
              "invalid input log file - BlockUser - UsernameToBlock not a string"
          else if name = "UnblockUser" then
            parseTwoStrings r "Username" "UsernameToUnblock" ActionRec.unblockUser
              "invalid input log file - UnblockUser - missing Username"
              "invalid input log file - UnblockUser - Username not a string"
              "invalid input log file - UnblockUser - missing UsernameToUnblock"
              "invalid input log file - UnblockUser - UsernameToUnblock not a string"
          else if name = "CreateChannel" then
            parseOneString r "Channelname" ActionRec.createChannel
              "invalid input log file - CreateChannel - missing Channelname"
              "invalid input log file - CreateChannel - Channelname not a string"
          else if name = "DeleteChannel" then
            parseOneString r "Channelname" ActionRec.deleteChannel
              "invalid input log file - DeleteChannel - missing Channelname"
              "invalid input log file - DeleteChannel - Channelname not a string"
          else if name = "PostMessage" then
            parsePostMessage r
          else .err "invalid input log file - unknown action"

/-- The record loop of `Replayer.Replay`: skip empty records, parse the rest
in order, dispatch each parsed action onto the model (with logging and
notification suppressed), abort on the first failure. -/
def replayList (m : ModelSt) : List JObj → PRes ModelSt
  | [] => .ok m
  | r :: rest =>
    if r.length = 0 then replayList m rest
    else
      match parseActionRecord r with
      | .ok a => replayList (applyAction m a) rest
      | .err e => .err e
      | .crash => .crash

/-- `json.Unmarshal` into `[]map[string]interface\x7b\x7d`: the content must
be an array whose elements are all objects. -/
def asObjList : List JValue → Option (List JObj)
  | [] => some []
  | v :: rest =>
    match asObj v, asObjList rest with
    | some o, some os => some (o :: os)
    | _, _ => none

/-- Decode the whole persisted file. -/
def decodeLogFile : JValue → Option (List JObj)
  | .jarr elems => asObjList elems
  | _ => none

/-- `NewModel` with a replayer over the given persisted content: unmarshal,
then replay every record onto fresh empty maps; any failure aborts
construction, so no partially-replayed store is returned. -/
def newModelReplay (file : JValue) : PRes ModelSt :=
  match decodeLogFile file with
  | none => .err "invalid input log file - malformed json"
  | some records => replayList emptyModel records

/-- `json.Marshal` of one action struct as `Logger.commitAction` writes it:
the `Action` envelope (kind name and record timestamp) followed by the
payload fields in struct order. -/
def encodeAction (rt : GoTime) : ActionRec → JObj
  | .createUser u =>
    [("Action", .jobj [("Name", .jstr "CreateUser"), ("Timestamp", .jtime rt)]),
     ("Username", .jstr u)]
  | .deleteUser u =>
    [("Action", .jobj [("Name", .jstr "DeleteUser"), ("Timestamp", .jtime rt)]),
     ("Username", .jstr u)]
  | .blockUser u t =>
    [("Action", .jobj [("Name", .jstr "BlockUser"), ("Timestamp", .jtime rt)]),
     ("Username", .jstr u), ("UsernameToBlock", .jstr t)]
  | .unblockUser u t =>
    [("Action", .jobj [("Name", .jstr "UnblockUser"), ("Timestamp", .jtime rt)]),
     ("Username", .jstr u), ("UsernameToUnblock", .jstr t)]
  | .createChannel c =>
    [("Action", .jobj [("Name", .jstr "CreateChannel"), ("Timestamp", .jtime rt)]),
     ("Channelname", .jstr c)]
  | .deleteChannel c =>
    [("Action", .jobj [("Name", .jstr "DeleteChannel"), ("Timestamp", .jtime rt)]),
     ("Channelname", .jstr c)]
  | .postMessage c u ts x =>
    [("Action", .jobj [("Name", .jstr "PostMessage"), ("Timestamp", .jtime rt)]),
     ("Channelname", .jstr c), ("Username", .jstr u), ("Timestamp", .jtime ts),
     ("Text", .jstr x)]

/-- Encode a list of log records, drawing each record's envelope timestamp
from `rts` (zero once exhausted; replay never reads it). -/
def encodeRecords : List GoTime → List ActionRec → List JObj
  | _, [] => []
  | [], a :: rest => encodeAction ⟨0, 0⟩ a :: encodeRecords [] rest
  | rt :: rts, a :: rest => encodeAction rt a :: encodeRecords rts rest

/-- The persisted file a fresh log plus the given appended records yields:
`NewLogger` writes the empty placeholder object first, `commitAction` appends
one marshalled record per accepted mutation. -/
def mkLogFile (rts : List GoTime) (entries : List ActionRec) : JValue :=
  .jarr (.jobj [] :: (encodeRecords rts entries).map JValue.jobj)

/-! ## The subscription engine (`model/subs`) -/

/-- The engine's registered-observer set: the keys of the Go
`map[Client]*clientInfo`, with clients identified by pointer identity
(modelled as `Nat`). -/
def EngineSt := List Nat

/-- `Engine.Connect`: error message and resulting observer set. -/
def connect (e : List Nat) (c : Nat) : Option String × List Nat :=
  if e.contains c then (some "Client already exists", e)
  else (none, c :: e)

/-- `Engine.Disconnect`: error message and resulting observer set. -/
def disconnect (e : List Nat) (c : Nat) : Option String × List Nat :=
  if e.contains c then (none, e.erase c)
  else (some "Client doesn't exist", e)

/-! ## Representation invariant and sample states -/

/-- Representation invariant of store states: distinct user-map keys (Go maps
cannot hold a key twice), duplicate-free blocked lists, an empty blocked list
for Anonymous (it may never block), and no self-blocking. -/
def WF (m : ModelSt) : Prop :=
  (m.users.map Prod.fst).Nodup ∧
  (∀ p ∈ m.users, p.2.blockedUsers.Nodup) ∧
  (∀ p ∈ m.users, p.1 = "Anonymous" → p.2.blockedUsers = []) ∧
  (∀ p ∈ m.users, p.1 ∉ p.2.blockedUsers)

instance (m : ModelSt) : Decidable (WF m) := by
  unfold WF
  infer_instance

/-- The state of a freshly seeded store. -/
def seededState : ModelSt := (liveRun []).1

/-- A seeded store holding one extra user. -/
def oneUserState : ModelSt := (liveRun [.createUser "user1"]).1

/-- A seeded store where user1 blocks user2. -/
def blockedPairState : ModelSt :=
  (liveRun [.createUser "user1", .createUser "user2", .blockUser "user1" "user2"]).1

/-- A seeded store with a channel holding three messages, the middle one by a
user that alice blocks. -/
def historyState : ModelSt :=
  (liveRun [.createUser "alice", .createUser "bob", .createChannel "dev",
    .blockUser "alice" "bob",
    .postMessage "dev" "alice" ⟨1, 0⟩ "hi",
    .postMessage "dev" "bob" ⟨2, 0⟩ "yo",
    .postMessage "dev" "alice" ⟨3, 0⟩ "bye"]).1

/-! ## Helper lemmas about the map and list scans -/

theorem lookupKey_updateEntry (l : List (String × α)) (key k : String) (f : α → α) :
    lookupKey (updateEntry key f l) k =
      if k = key then (lookupKey l k).map f else lookupKey l k := by
  induction l with
  | nil => simp [updateEntry, lookupKey]
  | cons p rest ih =>
    by_cases hp : p.1 = k
    · by_cases hk : k = key <;> simp [updateEntry, lookupKey, hp, hk]
    · simp [updateEntry, lookupKey, hp, ih]

theorem lookupKey_eraseKey_ne (l : List (String × α)) (key k : String) (h : k ≠ key) :
    lookupKey (eraseKey l key) k = lookupKey l k := by
  induction l with
  | nil => simp [eraseKey]
  | cons p rest ih =>
    by_cases hp : p.1 = key
    · have hpk : p.1 ≠ k := by rw [hp]; exact fun hkk => h hkk.symm
      simp [eraseKey, lookupKey, hp, hpk, Ne.symm h]
    · simp [eraseKey, lookupKey, hp, ih]

theorem lookupKey_mapSnd (l : List (String × α)) (g : α → α) (k : String) :
    lookupKey (l.map (fun p => (p.1, g p.2))) k = (lookupKey l k).map g := by
  induction l with
  | nil => simp [lookupKey]
  | cons p rest ih =>
    by_cases hp : p.1 = k <;> simp [lookupKey, hp, ih]

theorem lookupKey_cons_isSome (l : List (String × α)) (q : String × α) (k : String)
    (h : (lookupKey l k).isSome) : (lookupKey (q :: l) k).isSome := by
  by_cases hq : q.1 = k <;> simp [lookupKey, hq, h]

theorem lookupKey_some_mem (l : List (String × α)) (k : String) (v : α)
    (h : lookupKey l k = some v) : (k, v) ∈ l := by
  induction l with
  | nil => simp [lookupKey] at h
  | cons p rest ih =>
    by_cases hp : p.1 = k
    · simp [lookupKey, hp] at h
      exact List.mem_cons.mpr (Or.inl (by rw [← hp, ← h]))
    · simp [lookupKey, hp] at h
      exact List.mem_cons_of_mem p (ih h)

theorem lookupKey_eq_none (l : List (String × α)) (k : String) :
    lookupKey l k = none ↔ ∀ p ∈ l, p.1 ≠ k := by
  induction l with
  | nil => simp [lookupKey]
  | cons p rest ih =>
    by_cases hp : p.1 = k <;> simp [lookupKey, hp, ih]

theorem updateEntry_keys (l : List (String × α)) (key : String) (f : α → α) :
    (updateEntry key f l).map Prod.fst = l.map Prod.fst := by
  induction l with
  | nil => rfl
  | cons p rest ih => simp [updateEntry, ih]

theorem eraseKey_sublist (l : List (String × α)) (k : String) :
    (eraseKey l k).Sublist l := by
  induction l with
  | nil => simp [eraseKey]
  | cons p rest ih =>
    by_cases hp : p.1 = k
    · simp [eraseKey, hp]
    · simpa [eraseKey, hp] using ih

theorem updateEntry_of_not_mem (l : List (String × α)) (key : String) (f : α → α)
    (h : key ∉ l.map Prod.fst) : updateEntry key f l = l := by
  induction l with
  | nil => rfl
  | cons p rest ih =>
    simp only [List.map_cons, List.mem_cons, not_or] at h
    have hp : p.1 ≠ key := fun hk => h.1 hk.symm
    simp [updateEntry, hp, ih h.2]

theorem updateEntry_eq_self (l : List (String × α)) (key : String) (f : α → α) (v : α)
    (hnd : (l.map Prod.fst).Nodup) (hv : lookupKey l key = some v) (hf : f v = v) :
    updateEntry key f l = l := by
  induction l with
  | nil => rfl
  | cons p rest ih =>
    simp only [List.map_cons, List.nodup_cons] at hnd
    by_cases hp : p.1 = key
    · simp [lookupKey, hp] at hv
      have hrest : updateEntry key f rest = rest :=
        updateEntry_of_not_mem rest key f (hp ▸ hnd.1)
      have h2 : f p.2 = p.2 := by rw [hv, hf]
      simp only [updateEntry, hrest]
      rw [if_pos hp, h2]
    · simp [lookupKey, hp] at hv
      simp [updateEntry, hp, ih hnd.2 hv]

theorem elemStr_iff_mem (l : List String) (x : String) : elemStr l x = true ↔ x ∈ l := by
  induction l with
  | nil => simp [elemStr]
  | cons a rest ih =>
    simp only [elemStr, Bool.or_eq_true, decide_eq_true_eq, ih, List.mem_cons]
    constructor
    · rintro (h | h)
      · exact Or.inl h.symm
      · exact Or.inr h
    · rintro (h | h)
      · exact Or.inl h.symm
      · exact Or.inr h

theorem removeFirst_of_not_mem (l : List String) (x : String) (h : x ∉ l) :
    removeFirst l x = l := by
  induction l with
  | nil => rfl
  | cons a rest ih =>
    simp only [List.mem_cons, not_or] at h
    have ha : a ≠ x := fun hk => h.1 hk.symm
    simp [removeFirst, ha, ih h.2]

theorem mem_of_mem_removeFirst (l : List String) (x y : String)
    (h : y ∈ removeFirst l x) : y ∈ l := by
  induction l with
  | nil => simp [removeFirst] at h
  | cons a rest ih =>
    by_cases ha : a = x
    · simp only [removeFirst, ha, if_pos rfl] at h
      exact List.mem_cons_of_mem a h
    · simp only [removeFirst, if_neg ha, List.mem_cons] at h
      rcases h with h | h
      · exact h ▸ List.mem_cons_self a rest
      · exact List.mem_cons_of_mem a (ih h)

theorem not_mem_removeFirst_self (l : List String) (x : String) (h : l.Nodup) :
    x ∉ removeFirst l x := by
  induction l with
  | nil => simp [removeFirst]
  | cons a rest ih =>
    simp only [List.nodup_cons] at h
    by_cases ha : a = x
    · simpa [removeFirst, ha] using ha ▸ h.1
    · simp only [removeFirst, if_neg ha, List.mem_cons, not_or]
      exact ⟨fun hx => ha hx.symm, ih h.2⟩

theorem nodup_removeFirst (l : List String) (x : String) (h : l.Nodup) :
    (removeFirst l x).Nodup := by
  induction l with
  | nil => simp [removeFirst]
  | cons a rest ih =>
    simp only [List.nodup_cons] at h
    by_cases ha : a = x
    · simpa [removeFirst, ha] using h.2
    · simp only [removeFirst, if_neg ha, List.nodup_cons]
      exact ⟨fun hm => h.1 (mem_of_mem_removeFirst rest x a hm), ih h.2⟩

/-! ## Replay determinism: the log written live replays to the live state -/

/-- Each mutation either rejects (state untouched, nothing logged) or writes
exactly its own record to the log. -/
theorem step_log_shape (s : ModelSt) (a : ActionRec) :
    ((step s a).log = [] ∧ (step s a).state = s) ∨ (step s a).log = [a] := by
  cases a <;>
    simp only [step, createUser, deleteUser, blockUser, unblockUser, createChannel,
      deleteChannel, postMessage, noChange] <;>
    split_ifs <;> simp

/-- Replaying the records one live mutation wrote, starting from the state the
mutation saw, lands in the state the mutation produced. -/
theorem replay_step_log (s : ModelSt) (a : ActionRec) :
    replayActions s (step s a).log = (step s a).state := by
  rcases step_log_shape s a with ⟨hl, hs⟩ | hl
  · rw [hl]
    exact hs.symm
  · rw [hl]
    rfl

/-- The final state of a live run is the fold of the pure transitions. -/
theorem runLive_fst (s : ModelSt) (as : List ActionRec) :
    (runLive s as).1 = replayActions s as := by
  induction as generalizing s with
  | nil => rfl
  | cons a rest ih => simpa [runLive, replayActions, List.foldl_cons] using ih (step s a).state

/-- Replaying the full log of a live run reproduces its final state. -/
theorem replay_runLive_log (s : ModelSt) (as : List ActionRec) :
    replayActions s (runLive s as).2 = (runLive s as).1 := by
  induction as generalizing s with
  | nil => rfl
  | cons a rest ih =>
    show replayActions s ((step s a).log ++ (runLive (step s a).state rest).2) = _
    rw [replayActions, List.foldl_append]
    have h1 : List.foldl applyAction s (step s a).log = (step s a).state := replay_step_log s a
    rw [h1]
    exact ih (step s a).state

/-- Marshalling then parsing one record restores the action exactly (the
instant carried by a `PostMessage` record round-trips through the RFC3339
text, fractional seconds included). -/
theorem parse_encodeAction (rt : GoTime) (a : ActionRec) :
    parseActionRecord (encodeAction rt a) = .ok a := by
  cases a <;> rfl

/-- A marshalled record is never the empty placeholder object. -/
theorem encodeAction_ne_nil (rt : GoTime) (a : ActionRec) :
    (encodeAction rt a).length ≠ 0 := by
  cases a <;> simp [encodeAction]

/-- Replaying marshalled records dispatches exactly the encoded actions. -/
theorem replayList_encodeRecords (rts : List GoTime) (es : List ActionRec) (s : ModelSt) :
    replayList s (encodeRecords rts es) = .ok (replayActions s es) := by
  induction es generalizing s rts with
  | nil => cases rts <;> rfl
  | cons a rest ih =>
    have head : ∀ rt, replayList s (encodeAction rt a :: encodeRecords (rts.tail) rest) =
        .ok (replayActions (applyAction s a) rest) := by
      intro rt
      rw [replayList, if_neg (encodeAction_ne_nil rt a), parse_encodeAction]
      exact ih rts.tail (applyAction s a)
    cases rts with
    | nil => simpa [encodeRecords, replayActions] using head ⟨0, 0⟩
    | cons rt rts' => simpa [encodeRecords, replayActions] using head rt

/-- Unmarshalling a list of marshalled objects succeeds. -/
theorem asObjList_map_jobj (os : List JObj) :
    asObjList (os.map JValue.jobj) = some os := by
  induction os with
  | nil => rfl
  | cons o rest ih => simp [asObjList, asObj, ih]

/-- C1.  Replay determinism: for any sequence of mutation calls `M` issued
against a freshly seeded store, reconstructing a store through the replay
driver from the log file those calls produced (whatever the record
timestamps) yields exactly the live store's final state: same users,
blocked-sets, channels and message sequences, with no partial or failed
replay. -/
theorem replay_determinism (rts : List GoTime) (M : List ActionRec) :
    newModelReplay (mkLogFile rts (liveRun M).2) = .ok (liveRun M).1 := by
  have hdec : decodeLogFile (mkLogFile rts (liveRun M).2) =
      some ([] :: encodeRecords rts (liveRun M).2) := by
    simp [mkLogFile, decodeLogFile, asObjList, asObj, asObjList_map_jobj]
  rw [newModelReplay, hdec]
  show replayList emptyModel ([] :: encodeRecords rts (liveRun M).2) = _
  rw [replayList]
  simp only [List.length_nil, if_pos rfl]
  rw [replayList_encodeRecords]
  rw [show (liveRun M).2 = (runLive emptyModel (seedActions ++ M)).2 from rfl,
    replay_runLive_log]
  rfl

/-! ## Preservation of the seeded defaults and of the representation
invariant -/

theorem foldl_preserves (P : ModelSt → Prop)
    (hstep : ∀ s a, P s → P (applyAction s a)) :
    ∀ (as : List ActionRec) (s : ModelSt), P s → P (replayActions s as) := by
  intro as
  induction as with
  | nil => exact fun s h => h
  | cons a rest ih =>
    intro s h
    exact ih (applyAction s a) (hstep s a h)

theorem updateEntry_eq_map (key : String) (f : α → α) (l : List (String × α)) :
    updateEntry key f l = l.map (fun p => (p.1, if p.1 = key then f p.2 else p.2)) := by
  induction l with
  | nil => rfl
  | cons p rest ih => simp [updateEntry, ih]

theorem mapSnd_keys (l : List (String × α)) (g : α → α) :
    (l.map (fun p => (p.1, g p.2))).map Prod.fst = l.map Prod.fst := by
  induction l with
  | nil => rfl
  | cons p rest ih => simp [ih]

theorem map_keys_eq (l : List (String × α)) (f : (String × α) → (String × β))
    (hf : ∀ p, (f p).1 = p.1) : (l.map f).map Prod.fst = l.map Prod.fst := by
  induction l with
  | nil => rfl
  | cons p rest ih => simp [ih, hf]

/-- The seeded defaults survive every single mutation: `Anonymous` stays in
the users map and `General` stays in the channels map. -/
theorem defaults_step (s : ModelSt) (a : ActionRec)
    (h : (lookupKey s.users "Anonymous").isSome ∧
      (lookupKey s.channels "General").isSome) :
    (lookupKey (applyAction s a).users "Anonymous").isSome ∧
      (lookupKey (applyAction s a).channels "General").isSome := by
  obtain ⟨hu, hc⟩ := h
  cases a with
  | createUser u =>
    simp only [applyAction, step, createUser, noChange]
    split_ifs <;> dsimp only <;>
      exact ⟨by first | exact hu | exact lookupKey_cons_isSome _ _ _ hu, hc⟩
  | deleteUser u =>
    simp only [applyAction, step, deleteUser, noChange]
    split_ifs with h1 h2 <;> dsimp only
    · exact ⟨hu, hc⟩
    · exact ⟨hu, hc⟩
    · refine ⟨?_, hc⟩
      have hne : ("Anonymous" : String) ≠ u := fun he => h2 he.symm
      rw [lookupKey_mapSnd (eraseKey s.users u)
        (fun v => { v with blockedUsers := removeFirst v.blockedUsers u }) "Anonymous",
        lookupKey_eraseKey_ne s.users u "Anonymous" hne]
      simpa using hu
  | blockUser u t =>
    simp only [applyAction, step, blockUser, noChange]
    split_ifs <;> dsimp only <;> refine ⟨?_, hc⟩ <;>
      first
        | exact hu
        | · rw [lookupKey_updateEntry]
            split_ifs <;> simpa using hu
  | unblockUser u t =>
    simp only [applyAction, step, unblockUser, noChange]
    split_ifs <;> dsimp only <;> refine ⟨?_, hc⟩ <;>
      first
        | exact hu
        | · rw [lookupKey_updateEntry]
            split_ifs <;> simpa using hu
  | createChannel c =>
    simp only [applyAction, step, createChannel, noChange]
    split_ifs <;> dsimp only <;>
      exact ⟨hu, by first | exact hc | exact lookupKey_cons_isSome _ _ _ hc⟩
  | deleteChannel c =>
    simp only [applyAction, step, deleteChannel, noChange]
    split_ifs with h1 h2 <;> dsimp only
    · exact ⟨hu, hc⟩
    · exact ⟨hu, hc⟩
    · refine ⟨hu, ?_⟩
      have hne : ("General" : String) ≠ c := fun he => h2 he.symm
      rw [lookupKey_eraseKey_ne s.channels c "General" hne]
      exact hc
  | postMessage c u ts x =>
    simp only [applyAction, step, postMessage, noChange]
    split_ifs <;> dsimp only <;> refine ⟨hu, ?_⟩ <;>
      first
        | exact hc
        | · rw [lookupKey_updateEntry]
            split_ifs <;> simpa using hc

/-- C2.  For every sequence of mutations issued against a freshly seeded
store, the user `Anonymous` is present in the users map and the channel
`General` is present in the channels map; in particular no sequence
containing `DeleteUser "Anonymous"` or `DeleteChannel "General"` removes
them. -/
theorem anonymous_general_invariant (M : List ActionRec) :
    (lookupKey (liveRun M).1.users "Anonymous").isSome ∧
      (lookupKey (liveRun M).1.channels "General").isSome := by
  have h1 : (liveRun M).1 = replayActions (replayActions emptyModel seedActions) M := by
    rw [liveRun, runLive_fst, replayActions, List.foldl_append]
    rfl
  rw [h1]
  exact foldl_preserves
    (fun s => (lookupKey s.users "Anonymous").isSome ∧
      (lookupKey s.channels "General").isSome)
    defaults_step M (replayActions emptyModel seedActions) (by decide)

theorem not_mem_keys_of_lookup_none (l : List (String × α)) (k : String)
    (h : lookupKey l k = none) : k ∉ l.map Prod.fst := by
  rw [lookupKey_eq_none] at h
  intro hm
  obtain ⟨p, hp, he⟩ := List.mem_map.mp hm
  exact h p hp he

theorem nodup_append_singleton (l : List String) (x : String)
    (hl : l.Nodup) (hx : x ∉ l) : (l ++ [x]).Nodup := by
  simp [List.nodup_append, hl, hx]

/-- Every mutation preserves the representation invariant. -/
theorem wf_step (s : ModelSt) (a : ActionRec) (hwf : WF s) : WF (applyAction s a) := by
  obtain ⟨hk, hbn, hae, hsb⟩ := hwf
  cases a with
  | createUser u =>
    simp only [applyAction, step, createUser, noChange]
    split_ifs with h1 h2 h3 <;> dsimp only
    · exact ⟨hk, hbn, hae, hsb⟩
    · exact ⟨hk, hbn, hae, hsb⟩
    · exact ⟨hk, hbn, hae, hsb⟩
    · refine ⟨?_, ?_, ?_, ?_⟩
      · rw [List.map_cons, List.nodup_cons]
        refine ⟨?_, hk⟩
        exact not_mem_keys_of_lookup_none s.users u
          (Option.not_isSome_iff_eq_none.mp h1)
      · intro p hp
        rcases List.mem_cons.mp hp with hp | hp
        · rw [hp]
          exact List.nodup_nil
        · exact hbn p hp
      · intro p hp _
        rcases List.mem_cons.mp hp with hp | hp
        · rw [hp]
        · exact hae p hp (by assumption)
      · intro p hp
        rcases List.mem_cons.mp hp with hp | hp
        · rw [hp]
          exact List.not_mem_nil u
        · exact hsb p hp
  | deleteUser u =>
    simp only [applyAction, step, deleteUser, noChange]
    split_ifs with h1 h2 <;> dsimp only
    · exact ⟨hk, hbn, hae, hsb⟩
    · exact ⟨hk, hbn, hae, hsb⟩
    · have hmem : ∀ p, p ∈ (eraseKey s.users u).map
          (fun p => (p.1, { p.2 with blockedUsers := removeFirst p.2.blockedUsers u })) →
          ∃ q, q ∈ s.users ∧
            p = (q.1, { q.2 with blockedUsers := removeFirst q.2.blockedUsers u }) := by
        intro p hp
        obtain ⟨q, hq, he⟩ := List.mem_map.mp hp
        exact ⟨q, (eraseKey_sublist s.users u).subset hq, he.symm⟩
      refine ⟨?_, ?_, ?_, ?_⟩
      · have h5 := map_keys_eq (eraseKey s.users u)
          (fun p => (p.1, { p.2 with blockedUsers := removeFirst p.2.blockedUsers u }))
          (fun p => rfl)
        rw [h5]
        exact hk.sublist ((eraseKey_sublist s.users u).map Prod.fst)
      · intro p hp
        obtain ⟨q, hq, he⟩ := hmem p hp
        rw [he]
        exact nodup_removeFirst q.2.blockedUsers u (hbn q hq)
      · intro p hp ha
        obtain ⟨q, hq, he⟩ := hmem p hp
        rw [he] at ha ⊢
        have : q.2.blockedUsers = [] := hae q hq ha
        rw [this]
        rfl
      · intro p hp
        obtain ⟨q, hq, he⟩ := hmem p hp
        rw [he]
        intro hm
        exact hsb q hq (mem_of_mem_removeFirst q.2.blockedUsers u q.1 hm)
  | blockUser u t =>
    simp only [applyAction, step, blockUser, noChange]
    split_ifs with h1 h2 h3 h4 <;> dsimp only
    · exact ⟨hk, hbn, hae, hsb⟩
    · exact ⟨hk, hbn, hae, hsb⟩
    · exact ⟨hk, hbn, hae, hsb⟩
    · exact ⟨hk, hbn, hae, hsb⟩
    · rw [updateEntry_eq_map]
      have hmem : ∀ p, p ∈ s.users.map (fun p => (p.1,
            if p.1 = u then
              (if elemStr p.2.blockedUsers t then p.2
               else { p.2 with blockedUsers := p.2.blockedUsers ++ [t] })
            else p.2)) →
          ∃ q, q ∈ s.users ∧ p = (q.1,
            if q.1 = u then
              (if elemStr q.2.blockedUsers t then q.2
               else { q.2 with blockedUsers := q.2.blockedUsers ++ [t] })
            else q.2) := by
        intro p hp
        obtain ⟨q, hq, he⟩ := List.mem_map.mp hp
        exact ⟨q, hq, he.symm⟩
      refine ⟨?_, ?_, ?_, ?_⟩
      · have h5 := map_keys_eq s.users
          (fun p => (p.1,
            if p.1 = u then
              (if elemStr p.2.blockedUsers t then p.2
               else { p.2 with blockedUsers := p.2.blockedUsers ++ [t] })
            else p.2))
          (fun p => rfl)
        rw [h5]
        exact hk
      · intro p hp
        obtain ⟨q, hq, he⟩ := hmem p hp
        rw [he]
        dsimp only
        split_ifs with hq1 hq2
        · exact hbn q hq
        · exact nodup_append_singleton q.2.blockedUsers t (hbn q hq)
            (fun hm => hq2 ((elemStr_iff_mem q.2.blockedUsers t).mpr hm))
        · exact hbn q hq
      · intro p hp ha
        obtain ⟨q, hq, he⟩ := hmem p hp
        rw [he] at ha ⊢
        dsimp only at ha ⊢
        have hqu : ¬(q.1 = u) := fun hqu => h3 (by rw [← hqu, ← ha])
        rw [if_neg hqu]
        exact hae q hq ha
      · intro p hp
        obtain ⟨q, hq, he⟩ := hmem p hp
        rw [he]
        dsimp only
        split_ifs with hq1 hq2
        · exact hsb q hq
        · intro hm
          rcases List.mem_append.mp hm with hm | hm
          · exact hsb q hq hm
          · rw [List.mem_singleton] at hm
            exact h4 (by rw [← hq1, hm])
        · exact hsb q hq
  | unblockUser u t =>
    simp only [applyAction, step, unblockUser, noChange]
    split_ifs with h1 h2 <;> dsimp only
    · exact ⟨hk, hbn, hae, hsb⟩
    · exact ⟨hk, hbn, hae, hsb⟩
    · rw [updateEntry_eq_map]
      have hmem : ∀ p, p ∈ s.users.map (fun p => (p.1,
            if p.1 = u then { p.2 with blockedUsers := removeFirst p.2.blockedUsers t }
            else p.2)) →
          ∃ q, q ∈ s.users ∧ p = (q.1,
            if q.1 = u then { q.2 with blockedUsers := removeFirst q.2.blockedUsers t }
            else q.2) := by
        intro p hp
        obtain ⟨q, hq, he⟩ := List.mem_map.mp hp
        exact ⟨q, hq, he.symm⟩
      refine ⟨?_, ?_, ?_, ?_⟩
      · have h5 := map_keys_eq s.users
          (fun p => (p.1,
            if p.1 = u then { p.2 with blockedUsers := removeFirst p.2.blockedUsers t }
            else p.2))
          (fun p => rfl)
        rw [h5]
        exact hk
      · intro p hp
        obtain ⟨q, hq, he⟩ := hmem p hp
        rw [he]
        dsimp only
        split_ifs with hq1
        · exact nodup_removeFirst q.2.blockedUsers t (hbn q hq)
        · exact hbn q hq
      · intro p hp ha
        obtain ⟨q, hq, he⟩ := hmem p hp
        rw [he] at ha ⊢
        dsimp only at ha ⊢
        split_ifs with hq1
        · rw [hae q hq ha]
          rfl
        · exact hae q hq ha
      · intro p hp
        obtain ⟨q, hq, he⟩ := hmem p hp
        rw [he]
        dsimp only
        split_ifs with hq1
        · intro hm
          exact hsb q hq (mem_of_mem_removeFirst q.2.blockedUsers t q.1 hm)
        · exact hsb q hq
  | createChannel c =>
    simp only [applyAction, step, createChannel, noChange]
    split_ifs <;> exact ⟨hk, hbn, hae, hsb⟩
  | deleteChannel c =>
    simp only [applyAction, step, deleteChannel, noChange]
    split_ifs <;> exact ⟨hk, hbn, hae, hsb⟩
  | postMessage c u ts x =>
    simp only [applyAction, step, postMessage, noChange]
    split_ifs <;> exact ⟨hk, hbn, hae, hsb⟩

/-- Every state reachable from a freshly seeded store satisfies the
representation invariant. -/
theorem wf_liveRun (M : List ActionRec) : WF (liveRun M).1 := by
  have h1 : (liveRun M).1 = replayActions (replayActions emptyModel seedActions) M := by
    rw [liveRun, runLive_fst, replayActions, List.foldl_append]
    rfl
  rw [h1]
  exact foldl_preserves WF wf_step M (replayActions emptyModel seedActions) (by decide)

/-- C3.  History semantics for an existing channel and requesting user:
`count = -1` returns the entire message sequence in insertion order with
messages by blocked authors removed; for every `count ≥ 0` the window of at
most the most recent `count` messages is selected over the full unfiltered
sequence (here phrased as reversing, taking `count`, reversing back) and only
then filtered, so fewer than `count` messages may come back. -/
theorem getChannelHistory_window_then_filter (m : ModelSt) (c u : String)
    (ch : Channel) (usr : User)
    (hc : lookupKey m.channels c = some ch) (hu : lookupKey m.users u = some usr) :
    getChannelHistory m c u (-1) =
      ch.messages.filter (fun msg => !(elemStr usr.blockedUsers msg.username)) ∧
    ∀ n : Nat, getChannelHistory m c u (n : Int) =
      ((ch.messages.reverse.take n).reverse).filter
        (fun msg => !(elemStr usr.blockedUsers msg.username)) := by
  constructor
  · simp [getChannelHistory, hc, hu]
  · intro n
    have hne : ¬((n : Int) = -1) := by omega
    simp only [getChannelHistory, hc, hu, if_neg hne]
    have key : (if ((ch.messages.length : Int) - n) < 0 then (0 : Int)
        else ((ch.messages.length : Int) - n)).toNat = ch.messages.length - n := by
      split_ifs with h <;> omega
    rw [key]
    have hwin : ch.messages.drop (ch.messages.length - n) =
        (ch.messages.reverse.take n).reverse := by
      rw [show ch.messages.drop (ch.messages.length - n) = ch.messages.rtake n from rfl]
      exact List.rtake_eq_reverse_take_reverse ch.messages n
    rw [hwin]

/-- Witness for C3 on a concrete store: full history drops the blocked
author's message, and the two-message window keeps only the unblocked one. -/
theorem getChannelHistory_window_then_filter_witness :
    lookupKey historyState.channels "dev" =
      some (Channel.mk "dev" [Message.mk "alice" ⟨1, 0⟩ "hi", Message.mk "bob" ⟨2, 0⟩ "yo",
        Message.mk "alice" ⟨3, 0⟩ "bye"]) ∧
    lookupKey historyState.users "alice" = some (User.mk "alice" ["bob"]) ∧
    getChannelHistory historyState "dev" "alice" (-1) =
      ([Message.mk "alice" ⟨1, 0⟩ "hi", Message.mk "bob" ⟨2, 0⟩ "yo",
        Message.mk "alice" ⟨3, 0⟩ "bye"].filter
        (fun msg => !(elemStr (User.mk "alice" ["bob"]).blockedUsers msg.username))) ∧
    getChannelHistory historyState "dev" "alice" ((2 : Nat) : Int) =
      ((([Message.mk "alice" ⟨1, 0⟩ "hi", Message.mk "bob" ⟨2, 0⟩ "yo",
        Message.mk "alice" ⟨3, 0⟩ "bye"].reverse.take 2).reverse).filter
        (fun msg => !(elemStr (User.mk "alice" ["bob"]).blockedUsers msg.username))) :=
  ⟨by decide, by decide,
    (getChannelHistory_window_then_filter historyState "dev" "alice"
      (Channel.mk "dev" [Message.mk "alice" ⟨1, 0⟩ "hi", Message.mk "bob" ⟨2, 0⟩ "yo",
        Message.mk "alice" ⟨3, 0⟩ "bye"]) (User.mk "alice" ["bob"])
      (by decide) (by decide)).1,
    (getChannelHistory_window_then_filter historyState "dev" "alice"
      (Channel.mk "dev" [Message.mk "alice" ⟨1, 0⟩ "hi", Message.mk "bob" ⟨2, 0⟩ "yo",
        Message.mk "alice" ⟨3, 0⟩ "bye"]) (User.mk "alice" ["bob"])
      (by decide) (by decide)).2 2⟩

/-- C4 counterexample.  On a reachable store where user1 already blocks
user2, `BlockUser("user1","user2")` leaves the state unchanged but still
writes a log record, and `UnblockUser("user2","user1")` with user1 absent
from user2's blocked-set also writes a log record — refuting the claim that
such calls log nothing new. -/
theorem block_unblock_idempotent_log_cex :
    elemStr (User.mk "user1" ["user2"]).blockedUsers "user2" = true ∧
    lookupKey blockedPairState.users "user1" = some (User.mk "user1" ["user2"]) ∧
    (step blockedPairState (.blockUser "user1" "user2")).state = blockedPairState ∧
    ¬((step blockedPairState (.blockUser "user1" "user2")).log = []) ∧
    elemStr (User.mk "user2" []).blockedUsers "user1" = false ∧
    lookupKey blockedPairState.users "user2" = some (User.mk "user2" []) ∧
    (step blockedPairState (.unblockUser "user2" "user1")).state = blockedPairState ∧
    ¬((step blockedPairState (.unblockUser "user2" "user1")).log = []) := by decide

/-- C4 amended.  Block/Unblock is idempotent in state only: on a well-formed
store, blocking an already-blocked target or unblocking a non-blocked target
leaves the state unchanged, but a log record is written and a "user changed"
notification is triggered on every call that passes name validation. -/
theorem block_unblock_state_idempotent_but_logged (s : ModelSt) (who target : String)
    (u : User) (hwf : WF s)
    (hu : lookupKey s.users who = some u)
    (ht : (lookupKey s.users target).isSome) :
    (who ≠ "Anonymous" → who ≠ target → elemStr u.blockedUsers target = true →
      (step s (.blockUser who target)).state = s ∧
      (step s (.blockUser who target)).log = [.blockUser who target] ∧
      (step s (.blockUser who target)).notifs = [.userChanged who]) ∧
    (elemStr u.blockedUsers target = false →
      (step s (.unblockUser who target)).state = s ∧
      (step s (.unblockUser who target)).log = [.unblockUser who target] ∧
      (step s (.unblockUser who target)).notifs = [.userChanged who]) := by
  have hwho : ¬((lookupKey s.users who).isNone = true) := by simp [hu]
  have htgt : ¬((lookupKey s.users target).isNone = true) := by
    simp only [Option.isNone_iff_eq_none]
    intro hcon
    rw [hcon] at ht
    exact Bool.noConfusion ht
  constructor
  · intro hanon hne helem
    simp only [step, blockUser, if_neg hwho, if_neg htgt, if_neg hanon, if_neg hne]
    refine ⟨?_, trivial, trivial⟩
    dsimp only
    have hf : (if elemStr u.blockedUsers target then u
        else { u with blockedUsers := u.blockedUsers ++ [target] }) = u := if_pos helem
    rw [updateEntry_eq_self s.users who _ u hwf.1 hu hf]
  · intro helem
    simp only [step, unblockUser, if_neg hwho, if_neg htgt]
    refine ⟨?_, trivial, trivial⟩
    dsimp only
    have hmem : target ∉ u.blockedUsers := by
      intro hm
      rw [(elemStr_iff_mem u.blockedUsers target).mpr hm] at helem
      exact Bool.noConfusion helem
    have hf : { u with blockedUsers := removeFirst u.blockedUsers target } = u := by
      rw [removeFirst_of_not_mem u.blockedUsers target hmem]
    rw [updateEntry_eq_self s.users who _ u hwf.1 hu hf]

/-- Witness for the amended C4 at a concrete reachable store. -/
theorem block_unblock_state_idempotent_but_logged_witness :
    (step blockedPairState (.blockUser "user1" "user2")).state = blockedPairState ∧
    (step blockedPairState (.blockUser "user1" "user2")).log =
      [.blockUser "user1" "user2"] ∧
    (step blockedPairState (.blockUser "user1" "user2")).notifs =
      [.userChanged "user1"] :=
  (block_unblock_state_idempotent_but_logged blockedPairState "user1" "user2"
    (User.mk "user1" ["user2"]) (by decide) (by decide) (by decide)).1
    (by decide) (by decide) (by decide)

/-- C5 counterexample.  `UnblockUser("Anonymous","user1")` (`who` reserved)
and `UnblockUser("user1","user1")` (`who = target`) are not silent no-ops:
both names are known, so the call logs a record and triggers a notification —
refuting the claim that these cases are rejected silently. -/
theorem unblock_silent_noop_cex :
    (lookupKey oneUserState.users "Anonymous").isSome ∧
    (lookupKey oneUserState.users "user1").isSome ∧
    ¬((step oneUserState (.unblockUser "Anonymous" "user1")).log = []) ∧
    ¬((step oneUserState (.unblockUser "Anonymous" "user1")).notifs = []) ∧
    ¬((step oneUserState (.unblockUser "user1" "user1")).log = []) := by decide

/-- C5 amended.  `BlockUser` is a silent no-op in all four cases (unknown
`who`, unknown `target`, `who = target`, `who = "Anonymous"`), but
`UnblockUser` short-circuits only on unknown names; when both names are known
and `who = target` or `who = "Anonymous"`, the state is still unchanged on a
well-formed store (nothing was there to remove), yet a log record and a
"user changed" notification are produced. -/
theorem validation_noop_boundaries (s : ModelSt) (who target : String) :
    ((lookupKey s.users who = none ∨ lookupKey s.users target = none ∨
        who = target ∨ who = "Anonymous") →
      step s (.blockUser who target) = noChange s) ∧
    ((lookupKey s.users who = none ∨ lookupKey s.users target = none) →
      step s (.unblockUser who target) = noChange s) ∧
    (WF s → ∀ u, lookupKey s.users who = some u → (lookupKey s.users target).isSome →
      (who = target ∨ who = "Anonymous") →
      (step s (.unblockUser who target)).state = s ∧
      (step s (.unblockUser who target)).log = [.unblockUser who target] ∧
      (step s (.unblockUser who target)).notifs = [.userChanged who]) := by
  refine ⟨?_, ?_, ?_⟩
  · intro h
    simp only [step, blockUser]
    split_ifs with h1 h2 h3 h4
    · rfl
    · rfl
    · rfl
    · rfl
    · exfalso
      simp only [Option.isNone_iff_eq_none] at h1 h2
      rcases h with h | h | h | h
      · exact h1 h
      · exact h2 h
      · exact h4 h
      · exact h3 h
  · intro h
    simp only [step, unblockUser]
    split_ifs with h1 h2
    · rfl
    · rfl
    · exfalso
      simp only [Option.isNone_iff_eq_none] at h1 h2
      rcases h with h | h
      · exact h1 h
      · exact h2 h
  · intro hwf u hu ht hcase
    have hwho : ¬((lookupKey s.users who).isNone = true) := by simp [hu]
    have htgt : ¬((lookupKey s.users target).isNone = true) := by
      simp only [Option.isNone_iff_eq_none]
      intro hcon
      rw [hcon] at ht
      exact Bool.noConfusion ht
    simp only [step, unblockUser, if_neg hwho, if_neg htgt]
    refine ⟨?_, trivial, trivial⟩
    dsimp only
    have hmem : target ∉ u.blockedUsers := by
      rcases hcase with hcase | hcase
      · intro hm
        exact hwf.2.2.2 (who, u) (lookupKey_some_mem s.users who u hu) (hcase ▸ hm)
      · have hempty : u.blockedUsers = [] :=
          hwf.2.2.1 (who, u) (lookupKey_some_mem s.users who u hu) hcase
        rw [hempty]
        exact List.not_mem_nil target
    have hf : { u with blockedUsers := removeFirst u.blockedUsers target } = u := by
      rw [removeFirst_of_not_mem u.blockedUsers target hmem]
    rw [updateEntry_eq_self s.users who _ u hwf.1 hu hf]

/-- Witness for the amended C5 at a concrete reachable store. -/
theorem validation_noop_boundaries_witness :
    (step oneUserState (.unblockUser "Anonymous" "user1")).state = oneUserState ∧
    (step oneUserState (.unblockUser "Anonymous" "user1")).log =
      [.unblockUser "Anonymous" "user1"] ∧
    (step oneUserState (.unblockUser "Anonymous" "user1")).notifs =
      [.userChanged "Anonymous"] :=
  (validation_noop_boundaries oneUserState "Anonymous" "user1").2.2 (by decide)
    (User.mk "Anonymous" []) (by decide) (by decide) (Or.inr rfl)

/-- C6 counterexample.  A name containing a tab character (whitespace, but
not the space character the code checks for) is accepted: the user and the
channel are created and log records are written — refuting the claim that
every whitespace-containing name is rejected. -/
theorem whitespace_name_accepted_cex :
    ("a\tb" : String) ≠ "" ∧
    ("a\tb" : String).data.contains '\t' = true ∧
    (lookupKey (step seededState (.createUser "a\tb")).state.users "a\tb").isSome ∧
    (step seededState (.createUser "a\tb")).log = [.createUser "a\tb"] ∧
    (lookupKey (step seededState (.createChannel "a\tb")).state.channels "a\tb").isSome ∧
    (step seededState (.createChannel "a\tb")).log = [.createChannel "a\tb"] := by decide

/-- C6 amended.  For every name that is empty or contains the space
character, `CreateUser` and `CreateChannel` are silent no-ops (no entity, no
log record, no notification); other whitespace characters are not rejected. -/
theorem empty_or_space_name_noop (s : ModelSt) (name : String)
    (h : name = "" ∨ name.data.contains ' ' = true) :
    step s (.createUser name) = noChange s ∧ step s (.createChannel name) = noChange s := by
  constructor
  · simp only [step, createUser]
    split_ifs with h1 h2 h3
    · rfl
    · rfl
    · rfl
    · exfalso
      rcases h with h | h
      · exact h2 h
      · exact h3 h
  · simp only [step, createChannel]
    split_ifs with h1 h2 h3
    · rfl
    · rfl
    · rfl
    · exfalso
      rcases h with h | h
      · exact h2 h
      · exact h3 h

/-- Witness for the amended C6: a space-containing name is silently
rejected by both creators. -/
theorem empty_or_space_name_noop_witness :
    step seededState (.createUser "a b") = noChange seededState ∧
    step seededState (.createChannel "a b") = noChange seededState :=
  empty_or_space_name_noop seededState "a b" (Or.inr (by decide))

/-- C7.  Deletion cascade on reachable stores: after `DeleteUser U` succeeds
on an existing non-reserved user, every remaining user `X ≠ U` no longer has
`U` in its blocked-set, and that blocked-set is otherwise unchanged (exactly
the first occurrence of `U` was spliced out of the old list). -/
theorem deleteUser_cascade (M : List ActionRec) (U X : String) (info : User)
    (hU : (lookupKey (liveRun M).1.users U).isSome)
    (hres : U ≠ "Anonymous")
    (hX : X ≠ U)
    (hinfo : lookupKey (applyAction (liveRun M).1 (.deleteUser U)).users X = some info) :
    U ∉ info.blockedUsers ∧
    ∃ old, lookupKey (liveRun M).1.users X = some old ∧
      info.blockedUsers = removeFirst old.blockedUsers U := by
  have hwf := wf_liveRun M
  have hnn : ¬((lookupKey (liveRun M).1.users U).isNone = true) := by
    simp only [Option.isNone_iff_eq_none]
    intro hcon
    rw [hcon] at hU
    exact Bool.noConfusion hU
  simp only [applyAction, step, deleteUser, if_neg hnn, if_neg hres] at hinfo
  rw [lookupKey_mapSnd (eraseKey (liveRun M).1.users U)
    (fun v => { v with blockedUsers := removeFirst v.blockedUsers U }) X] at hinfo
  rw [lookupKey_eraseKey_ne (liveRun M).1.users U X hX] at hinfo
  cases hold : lookupKey (liveRun M).1.users X with
  | none =>
    rw [hold] at hinfo
    exact Option.noConfusion hinfo
  | some old =>
    rw [hold] at hinfo
    have hinfo2 : info = { old with blockedUsers := removeFirst old.blockedUsers U } :=
      (Option.some.inj hinfo).symm
    refine ⟨?_, old, rfl, by rw [hinfo2]⟩
    rw [hinfo2]
    exact not_mem_removeFirst_self old.blockedUsers U
      (hwf.2.1 (X, old) (lookupKey_some_mem (liveRun M).1.users X old hold))

/-- Witness for C7: deleting user1 clears it from user2's blocked-set. -/
theorem deleteUser_cascade_witness :
    "user1" ∉ (User.mk "user2" []).blockedUsers ∧
    ∃ old, lookupKey (liveRun [.createUser "user1", .createUser "user2",
        .blockUser "user2" "user1"]).1.users "user2" = some old ∧
      (User.mk "user2" []).blockedUsers = removeFirst old.blockedUsers "user1" :=
  deleteUser_cascade [.createUser "user1", .createUser "user2", .blockUser "user2" "user1"]
    "user1" "user2" (User.mk "user2" []) (by decide) (by decide) (by decide) (by decide)

/-- C8.  A record whose `Action` value is present but not an object goes
through the one unchecked type assertion in `Replayer.parseAction` and
crashes (Go panic) instead of returning the structural error the claim
requires; a record genuinely missing the `Action` key errors as claimed.
Every sibling field access uses the checked two-value assertion, so the
unchecked one is a slip against the documented error contract. -/
theorem replay_nonobject_action_crashes :
    newModelReplay (.jarr [.jobj [], .jobj [("Action", .jnum 5)]]) = .crash ∧
    newModelReplay (.jarr [.jobj [], .jobj [("Foo", .jnum 5)]]) =
      .err "invalid input log file - action not found" := ⟨rfl, rfl⟩

/-- C9.  `Connect` fails exactly when the observer is currently registered
and otherwise registers it; `Disconnect` fails exactly when it is not
registered and otherwise removes it; the registered set is unchanged in each
failure case. -/
theorem connect_disconnect_spec (e : List Nat) (c : Nat) (hnd : e.Nodup) :
    ((connect e c).1 ≠ none ↔ c ∈ e) ∧
    (c ∈ e → (connect e c).2 = e) ∧
    (c ∉ e → (connect e c).2 = c :: e ∧ c ∈ (connect e c).2) ∧
    ((disconnect e c).1 ≠ none ↔ c ∉ e) ∧
    (c ∉ e → (disconnect e c).2 = e) ∧
    (c ∈ e → (disconnect e c).2 = e.erase c ∧ c ∉ (disconnect e c).2) := by
  by_cases hc : c ∈ e
  · simp [connect, disconnect, hc, hnd.not_mem_erase]
  · simp [connect, disconnect, hc]

/-- Witness for C9 on a concrete observer set. -/
theorem connect_disconnect_spec_witness :
    ((connect [7] 9).1 ≠ none ↔ 9 ∈ [7]) ∧
    (9 ∈ [7] → (connect [7] 9).2 = [7]) ∧
    (9 ∉ [7] → (connect [7] 9).2 = 9 :: [7] ∧ 9 ∈ (connect [7] 9).2) ∧
    ((disconnect [7] 9).1 ≠ none ↔ 9 ∉ [7]) ∧
    (9 ∉ [7] → (disconnect [7] 9).2 = [7]) ∧
    (9 ∈ [7] → (disconnect [7] 9).2 = ([7] : List Nat).erase 9 ∧
      9 ∉ (disconnect [7] 9).2) :=
  connect_disconnect_spec [7] 9 (by decide)

/-- The idealized and the 64-bit model of `GetChannelHistory` agree for every
count from `-1` up that is representable, on channels whose length fits the
machine int (always true of a Go slice): there the subtraction cannot
overflow. -/
theorem getChannelHistory64_agrees (m : ModelSt) (c u : String) (n : Int)
    (hn : -1 ≤ n) (hn2 : n < 2 ^ 63)
    (hlen : ∀ ch, lookupKey m.channels c = some ch →
      (ch.messages.length : Int) < 2 ^ 63) :
    getChannelHistory64 m c u n = getChannelHistory m c u n := by
  cases hch : lookupKey m.channels c with
  | none => simp [getChannelHistory64, getChannelHistory, hch]
  | some ch =>
    cases hus : lookupKey m.users u with
    | none => simp [getChannelHistory64, getChannelHistory, hch, hus]
    | some usr =>
      have hl := hlen ch hch
      simp only [getChannelHistory64, getChannelHistory, hch, hus]
      by_cases hne : n = -1
      · simp [hne]
      · have hw : intWrap ((ch.messages.length : Int) - n) =
            (ch.messages.length : Int) - n := by
          simp only [intWrap]
          omega
        rw [hw]

/-- C10 counterexample.  At `count = -2^63` (the minimum representable int,
strictly below `-1`) the wrapping subtraction `len - count` overflows to a
negative index, is clamped to 0, and the full filtered sequence is returned —
refuting both that every `count < -1` yields the empty list and that only the
exact value `-1` selects the full sequence. -/
theorem history_min_int_full_cex :
    ((-(2 ^ 63) : Int) < -1) ∧
    (lookupKey historyState.channels "dev").isSome ∧
    (lookupKey historyState.users "Anonymous").isSome ∧
    getChannelHistory64 historyState "dev" "Anonymous" (-(2 ^ 63)) =
      getChannelHistory64 historyState "dev" "Anonymous" (-1) ∧
    ¬(getChannelHistory64 historyState "dev" "Anonymous" (-(2 ^ 63)) = []) := by decide

/-- C10 amended.  For an existing channel and user and a representable
`count < -1`: when `count > -2^63 + len` the 64-bit subtraction
`len - count` does not overflow, the start index lands beyond the end of the
sequence, and the empty list is returned; but when `count ≤ -2^63 + len` the
subtraction wraps negative, is clamped to 0, and the entire filtered sequence
comes back — so `-1` is not the only count selecting the full sequence. -/
theorem history64_negative_counts (m : ModelSt) (c u : String) (ch : Channel)
    (usr : User)
    (hc : lookupKey m.channels c = some ch) (hu : lookupKey m.users u = some usr)
    (n : Int) (hrep : -(2 ^ 63) ≤ n) (hn : n < -1)
    (hlen : (ch.messages.length : Int) < 2 ^ 63) :
    (-(2 ^ 63) + (ch.messages.length : Int) < n →
      getChannelHistory64 m c u n = []) ∧
    (n ≤ -(2 ^ 63) + (ch.messages.length : Int) →
      getChannelHistory64 m c u n =
        ch.messages.filter (fun msg => !(elemStr usr.blockedUsers msg.username))) := by
  have hne : ¬(n = -1) := by omega
  constructor
  · intro hnw
    simp only [getChannelHistory64, hc, hu, if_neg hne]
    have hw : intWrap ((ch.messages.length : Int) - n) =
        (ch.messages.length : Int) - n := by
      simp only [intWrap]
      omega
    rw [hw]
    have hdrop : ch.messages.length ≤ (if ((ch.messages.length : Int) - n) < 0 then (0 : Int)
        else ((ch.messages.length : Int) - n)).toNat := by
      split_ifs with h <;> omega
    rw [List.drop_eq_nil_of_le hdrop]
    rfl
  · intro hwr
    simp only [getChannelHistory64, hc, hu, if_neg hne]
    have hw : intWrap ((ch.messages.length : Int) - n) =
        (ch.messages.length : Int) - n - 2 ^ 64 := by
      simp only [intWrap]
      omega
    rw [hw]
    have hneg : ((ch.messages.length : Int) - n - 2 ^ 64) < 0 := by omega
    rw [if_pos hneg]
    rfl

/-- Witness for the amended C10: on a three-message channel, `count = -2`
(no overflow) yields the empty list while `count = -2^63` (wraps) yields the
full filtered sequence. -/
theorem history64_negative_counts_witness :
    getChannelHistory64 historyState "dev" "Anonymous" (-2) = [] ∧
    getChannelHistory64 historyState "dev" "Anonymous" (-(2 ^ 63)) =
      ([Message.mk "alice" ⟨1, 0⟩ "hi", Message.mk "bob" ⟨2, 0⟩ "yo",
        Message.mk "alice" ⟨3, 0⟩ "bye"].filter
        (fun msg => !(elemStr (User.mk "Anonymous" []).blockedUsers msg.username))) :=
  ⟨(history64_negative_counts historyState "dev" "Anonymous"
      (Channel.mk "dev" [Message.mk "alice" ⟨1, 0⟩ "hi", Message.mk "bob" ⟨2, 0⟩ "yo",
        Message.mk "alice" ⟨3, 0⟩ "bye"]) (User.mk "Anonymous" [])
      (by decide) (by decide) (-2) (by decide) (by decide) (by decide)).1 (by decide),
    (history64_negative_counts historyState "dev" "Anonymous"
      (Channel.mk "dev" [Message.mk "alice" ⟨1, 0⟩ "hi", Message.mk "bob" ⟨2, 0⟩ "yo",
        Message.mk "alice" ⟨3, 0⟩ "bye"]) (User.mk "Anonymous" [])
      (by decide) (by decide) (-(2 ^ 63)) (by decide) (by decide) (by decide)).2
      (by decide)⟩

end ChatServer
